import Mathlib

/-!
Verification development for the `upload-unity-package` GitHub action
(`src/index.js`).  The code is shallowly embedded: the filesystem is a flat
association list from paths (segment lists, relative to the working
directory) to entries, fallible filesystem primitives and the HTTP
transport are driven by explicit oracles, and the Node libraries used by
the source (`crypto` SHA-256, base64 digests, `JSON.parse`/`JSON.stringify`,
`compressing.tgz`) are modelled by executable Lean functions.
-/

set_option maxRecDepth 4096

/-- Byte sequences (Node `Buffer`s) are modelled as lists of naturals. -/
abbrev Bytes := List Nat

/-- A filesystem path, as a list of segments relative to `process.cwd()`
(the empty list is the working directory itself). -/
abbrev FPath := List String

/-- A filesystem entry: a regular file with its contents, or a directory. -/
inductive FSEntry where
  | file (data : Bytes)
  | dir
deriving DecidableEq, Repr

/-- The filesystem: a flat association list from paths to entries.  Earlier
entries shadow later ones (lookup is first-match). -/
abbrev FS := List (FPath × FSEntry)

/-- `stat fs p` returns the entry at path `p`, modelling
`fs.existsSync`/`fs.lstatSync` (`none` = path does not exist). -/
def stat (fs : FS) (p : FPath) : Option FSEntry :=
  match fs with
  | [] => none
  | e :: rest => if e.1 = p then some e.2 else stat rest p

/-- `stripPre p q` returns `some r` when `q = p ++ r`, else `none`
(the relative remainder of `q` under the directory `p`). -/
def stripPre : FPath → FPath → Option FPath
  | [], q => some q
  | _ :: _, [] => none
  | a :: p, b :: q => if a = b then stripPre p q else none

/-- All entries located at or below directory `p`, paired with their paths
relative to `p` (the entry at `p` itself appears with relative path `[]`). -/
def subAt (fs : FS) (p : FPath) : List (FPath × FSEntry) :=
  fs.filterMap (fun e => (stripPre p e.1).map (fun rel => (rel, e.2)))

/-- Entries strictly below directory `p`, with nonempty relative paths. -/
def strictAt (fs : FS) (p : FPath) : List (FPath × FSEntry) :=
  fs.filterMap (fun e =>
    match stripPre p e.1 with
    | some (x :: r) => some (x :: r, e.2)
    | _ => none)

/-- Re-root a list of relative entries under the directory `dest`. -/
def rebase (l : List (FPath × FSEntry)) (dest : FPath) : List (FPath × FSEntry) :=
  l.map (fun re => (dest ++ re.1, re.2))

/-- The names of the immediate children of directory `p`, modelling
`fsp.readdir`. -/
def childNames (fs : FS) (p : FPath) : List String :=
  fs.filterMap (fun e =>
    match stripPre p e.1 with
    | some [n] => some n
    | _ => none)

/-- Remove every entry at or below `p`, modelling
`fsp.rm(p, { recursive: true, force: true })`. -/
def rmAll (fs : FS) (p : FPath) : FS :=
  fs.filter (fun e => (stripPre p e.1).isNone)

/-- No filesystem entry lives under the top-level directory `[n]`. -/
def freshB (fs : FS) (n : String) : Bool :=
  fs.all (fun e => !(e.1.head? == some n))

/-- Every nonempty initial segment of an entry's path is itself present in
the filesystem (directory-closure well-formedness of a flat filesystem). -/
def closedB (fs : FS) : Bool :=
  fs.all (fun e =>
    (e.1.inits.filter (fun q => !q.isEmpty)).all
      (fun q => fs.any (fun e' => e'.1 == q)))

/-- All entry paths are pairwise distinct. -/
def pathsNodup (fs : FS) : Prop := (fs.map (·.1)).Nodup

/- ## SHA-256 and base64 (models of Node `crypto` digests) -/

/-- Truncate to a 32-bit word. -/
def w32 (n : Nat) : Nat := n % 4294967296

/-- 32-bit right rotation. -/
def rotr (x k : Nat) : Nat := w32 ((x >>> k) ||| (x <<< (32 - k)))

/-- 32-bit bitwise complement. -/
def not32 (x : Nat) : Nat := 4294967295 - w32 x

/-- The SHA-256 round constants. -/
def sha256K : List Nat :=
  [1116352408, 1899447441, 3049323471, 3921009573,
   961987163, 1508970993, 2453635748, 2870763221,
   3624381080, 310598401, 607225278, 1426881987,
   1925078388, 2162078206, 2614888103, 3248222580,
   3835390401, 4022224774, 264347078, 604807628,
   770255983, 1249150122, 1555081692, 1996064986,
   2554220882, 2821834349, 2952996808, 3210313671,
   3336571891, 3584528711, 113926993, 338241895,
   666307205, 773529912, 1294757372, 1396182291,
   1695183700, 1986661051, 2177026350, 2456956037,
   2730485921, 2820302411, 3259730800, 3345764771,
   3516065817, 3600352804, 4094571909, 275423344,
   430227734, 506948616, 659060556, 883997877,
   958139571, 1322822218, 1537002063, 1747873779,
   1955562222, 2024104815, 2227730452, 2361852424,
   2428436474, 2756734187, 3204031479, 3329325298]

/-- The SHA-256 initial hash value. -/
def sha256H0 : List Nat :=
  [1779033703, 3144134277, 1013904242, 2773480762,
   1359893119, 2600822924, 528734635, 1541459225]

/-- SHA-256 message padding: append `0x80`, zero bytes to 56 mod 64, and
the 64-bit big-endian bit length. -/
def sha256Pad (msg : Bytes) : Bytes :=
  let len := msg.length
  let padLen := (55 + 64 - len % 64) % 64 + 1
  let bitLen := len * 8
  msg ++ [0x80] ++ List.replicate (padLen - 1) 0 ++
    [w8 (bitLen >>> 56), w8 (bitLen >>> 48), w8 (bitLen >>> 40),
     w8 (bitLen >>> 32), w8 (bitLen >>> 24), w8 (bitLen >>> 16),
     w8 (bitLen >>> 8), w8 bitLen]
where
  /-- Truncate to one byte. -/
  w8 (n : Nat) : Nat := n % 256

/-- Split a byte list into consecutive chunks of 4, as big-endian words. -/
def bytesToWords : Bytes → List Nat
  | b0 :: b1 :: b2 :: b3 :: rest =>
      (((b0 * 256 + b1) * 256 + b2) * 256 + b3) :: bytesToWords rest
  | _ => []

/-- Split a list into chunks of 16 elements (drops a final short chunk;
padded SHA-256 input is always a multiple of 16 words). -/
def chunk16 : List Nat → List (List Nat)
  | w0 :: w1 :: w2 :: w3 :: w4 :: w5 :: w6 :: w7 ::
    w8 :: w9 :: w10 :: w11 :: w12 :: w13 :: w14 :: w15 :: rest =>
      [w0, w1, w2, w3, w4, w5, w6, w7,
       w8, w9, w10, w11, w12, w13, w14, w15] :: chunk16 rest
  | _ => []

/-- The SHA-256 message schedule: extend 16 words to 64. -/
def sha256Schedule (block : List Nat) : List Nat :=
  (List.range 48).foldl
    (fun w _ =>
      let n := w.length
      let g i := w.getD (n - i) 0
      let s0 := (rotr (g 15) 7) ^^^ (rotr (g 15) 18) ^^^ ((g 15) >>> 3)
      let s1 := (rotr (g 2) 17) ^^^ (rotr (g 2) 19) ^^^ ((g 2) >>> 10)
      w ++ [w32 (g 16 + s0 + g 7 + s1)])
    block

/-- One round of the SHA-256 compression function. -/
def sha256Round (v : List Nat) (kw : Nat × Nat) : List Nat :=
  match v with
  | [a, b, c, d, e, f, g, h] =>
      let S1 := (rotr e 6) ^^^ (rotr e 11) ^^^ (rotr e 25)
      let ch := (e &&& f) ^^^ ((not32 e) &&& g)
      let t1 := w32 (h + S1 + ch + kw.1 + kw.2)
      let S0 := (rotr a 2) ^^^ (rotr a 13) ^^^ (rotr a 22)
      let mj := (a &&& b) ^^^ (a &&& c) ^^^ (b &&& c)
      let t2 := w32 (S0 + mj)
      [w32 (t1 + t2), a, b, c, w32 (d + t1), e, f, g]
  | _ => v

/-- Process one 16-word block against the running hash state. -/
def sha256Block (st : List Nat) (block : List Nat) : List Nat :=
  let w := sha256Schedule block
  let v := (sha256K.zip w).foldl sha256Round st
  (st.zip v).map (fun p => w32 (p.1 + p.2))

/-- Big-endian bytes of a 32-bit word. -/
def wordBytes (n : Nat) : Bytes :=
  [(n >>> 24) % 256, (n >>> 16) % 256, (n >>> 8) % 256, n % 256]

/-- SHA-256 digest of a byte sequence, as 32 bytes. -/
def sha256 (msg : Bytes) : Bytes :=
  let blocks := chunk16 (bytesToWords (sha256Pad msg))
  ((blocks.foldl sha256Block sha256H0).map wordBytes).flatten

/-- The base64 alphabet. -/
def b64Alphabet : List Char :=
  "ABCDEFGHIJKLMNOPQRSTUVWXYZabcdefghijklmnopqrstuvwxyz0123456789+/".toList

/-- One base64 character. -/
def b64Char (n : Nat) : Char := b64Alphabet.getD n 'A'

/-- Standard base64 encoding with padding. -/
def base64 : Bytes → String
  | [] => ""
  | [b0] =>
      String.mk [b64Char (b0 >>> 2), b64Char ((b0 % 4) <<< 4), '=', '=']
  | [b0, b1] =>
      String.mk [b64Char (b0 >>> 2), b64Char (((b0 % 4) <<< 4) + (b1 >>> 4)),
                 b64Char ((b1 % 16) <<< 2), '=']
  | b0 :: b1 :: b2 :: rest =>
      String.mk [b64Char (b0 >>> 2), b64Char (((b0 % 4) <<< 4) + (b1 >>> 4)),
                 b64Char (((b1 % 16) <<< 2) + (b2 >>> 6)), b64Char (b2 % 64)]
        ++ base64 rest

/-- Models line 114 of `src/index.js`:
`crypto.createHash('sha256').update(file).digest('base64')`. -/
def sha256Base64 (msg : Bytes) : String := base64 (sha256 msg)

/- ## Errors raised by the action (`throw new Error(...)` sites) -/

/-- The failure modes of the action, one constructor per `throw` site or
fallible primitive: folder resolution (line 38), manifest lookup and
validation (lines 18/24/27), `JSON.parse` failure, filesystem primitives
(`mkdir`/`cp`/`compressDir`/`rm`/`unlink`/read), the 512 MiB size check
(line 104), and non-2xx HTTP responses (line 89). -/
inductive Err where
  | targetNotFound
  | manifestNotFound
  | jsonSyntax
  | invalidName
  | invalidVersion
  | enoent
  | eisdir
  | mkdirFailed
  | cpFailed
  | cpMissing
  | cpIntoSelf
  | compressFailed
  | rmFailed
  | payloadTooLarge
  | httpError (status : Nat)
deriving DecidableEq, Repr

/-- Decidable equality of `Except` results, used to evaluate concrete
outcomes. -/
instance {E A : Type} [DecidableEq E] [DecidableEq A] : DecidableEq (Except E A) :=
  fun a b =>
    match a, b with
    | .error x, .error y =>
        if h : x = y then isTrue (by rw [h])
        else isFalse (by intro hh; cases hh; exact h rfl)
    | .ok x, .ok y =>
        if h : x = y then isTrue (by rw [h])
        else isFalse (by intro hh; cases hh; exact h rfl)
    | .error _, .ok _ => isFalse (by intro hh; cases hh)
    | .ok _, .error _ => isFalse (by intro hh; cases hh)

/-- `fs.readFileSync`: file contents, `EISDIR` on a directory, `ENOENT`
when absent. -/
def readF (fs : FS) (p : FPath) : Except Err Bytes :=
  match stat fs p with
  | some (.file b) => .ok b
  | some .dir => .error .eisdir
  | none => .error .enoent

/- ## JSON values, `JSON.parse` and `JSON.stringify` -/

mutual

/-- JSON values (JavaScript objects as produced by `JSON.parse`),
mutually with their element and field lists. -/
inductive Json where
  | null
  | bool (b : Bool)
  | num (n : Int)
  | str (s : String)
  | arr (elems : JsonElems)
  | obj (fields : JsonFields)

/-- A list of JSON array elements. -/
inductive JsonElems where
  | nil
  | cons (hd : Json) (tl : JsonElems)

/-- An ordered list of JSON object fields. -/
inductive JsonFields where
  | nil
  | cons (key : String) (val : Json) (tl : JsonFields)

end

/-- First-match lookup of an object field (JS property read). -/
def lookupField : JsonFields → String → Option Json
  | .nil, _ => none
  | .cons key v rest, k => if key = k then some v else lookupField rest k

/-- JS property read `j[k]` (`none` = `undefined`, also on non-objects). -/
def jGet : Json → String → Option Json
  | .obj fields, k => lookupField fields k
  | _, _ => none

/-- JS property write on a field list: replace an existing key in place,
else append at the end (JS property-order semantics). -/
def setField : JsonFields → String → Json → JsonFields
  | .nil, k, v => .cons k v .nil
  | .cons key w rest, k, v =>
      if key = k then .cons k v rest else .cons key w (setField rest k v)

/-- JS property assignment `j[k] = v`; assigning a property on a
non-object primitive is a silent no-op in sloppy mode. -/
def jSet : Json → String → Json → Json
  | .obj fields, k, v => .obj (setField fields k v)
  | j, _, _ => j

/-- Append one field at the end of a field list. -/
def pushField : JsonFields → String → Json → JsonFields
  | .nil, k, v => .cons k v .nil
  | .cons key w rest, k, v => .cons key w (pushField rest k v)

/-- Append one element at the end of an element list. -/
def pushElem : JsonElems → Json → JsonElems
  | .nil, v => .cons v .nil
  | .cons h t, v => .cons h (pushElem t v)

/-- JavaScript truthiness of a JSON value. -/
def jsTruthy : Json → Bool
  | .null => false
  | .bool b => b
  | .num n => n != 0
  | .str s => !(s == "")
  | .arr _ => true
  | .obj _ => true

/-- Truthiness of a possibly-`undefined` value. -/
def jsTruthyO : Option Json → Bool
  | none => false
  | some j => jsTruthy j

/-- An opening brace character. -/
def lbrace : Char := Char.ofNat 123

/-- A closing brace character. -/
def rbrace : Char := Char.ofNat 125

/-- Skip JSON whitespace. -/
def skipWs : List Char → List Char
  | c :: cs => if c = ' ' || c = Char.ofNat 10 || c = Char.ofNat 9 || c = Char.ofNat 13 then skipWs cs else c :: cs
  | [] => []

/-- Read the remainder of a double-quoted string (escape sequences are not
modelled; none occur in the manifests considered here). -/
def takeStrGo : List Char → List Char → Option (String × List Char)
  | [], _ => none
  | c :: rest, acc =>
      if c = '"' then some (String.mk acc.reverse, rest)
      else takeStrGo rest (c :: acc)

/-- Read a run of decimal digits into a value. -/
def natGo : List Char → Nat → Nat × List Char
  | [], acc => (acc, [])
  | c :: rest, acc =>
      if c.isDigit then natGo rest (acc * 10 + (c.toNat - 48)) else (acc, c :: rest)

/-- Read a natural number literal (at least one digit). -/
def takeNat : List Char → Option (Nat × List Char)
  | [] => none
  | c :: rest => if c.isDigit then some (natGo rest (c.toNat - 48)) else none

/-- Read an integer literal with optional minus sign. -/
def takeNum (cs : List Char) : Option (Int × List Char) :=
  match cs with
  | '-' :: rest => (takeNat rest).map (fun p => (-(p.1 : Int), p.2))
  | _ => (takeNat cs).map (fun p => ((p.1 : Int), p.2))

/-- Parser jobs: a single value, the members of an object after at least
one is present, or the elements of an array after at least one is
present. -/
inductive PJob where
  | val
  | members (acc : JsonFields)
  | elems (acc : JsonElems)

/-- Fuel-indexed recursive-descent JSON parser (a model of `JSON.parse`
for the JSON subset used by package manifests). -/
def parseP : Nat → PJob → List Char → Option (Json × List Char)
  | 0, _, _ => none
  | fuel + 1, PJob.val, cs =>
    match skipWs cs with
    | c :: rest =>
      if c = lbrace then
        match skipWs rest with
        | c2 :: rest2 =>
            if c2 = rbrace then some (.obj .nil, rest2)
            else parseP fuel (.members .nil) (c2 :: rest2)
        | [] => none
      else if c = '[' then
        match skipWs rest with
        | c2 :: rest2 =>
            if c2 = ']' then some (.arr .nil, rest2)
            else parseP fuel (.elems .nil) (c2 :: rest2)
        | [] => none
      else if c = '"' then
        (takeStrGo rest []).map (fun p => (.str p.1, p.2))
      else
        match c :: rest with
        | 't' :: 'r' :: 'u' :: 'e' :: rest' => some (.bool true, rest')
        | 'f' :: 'a' :: 'l' :: 's' :: 'e' :: rest' => some (.bool false, rest')
        | 'n' :: 'u' :: 'l' :: 'l' :: rest' => some (.null, rest')
        | other => (takeNum other).map (fun p => (.num p.1, p.2))
    | [] => none
  | fuel + 1, PJob.members acc, cs =>
    match skipWs cs with
    | c :: rest =>
      if c = '"' then
        match takeStrGo rest [] with
        | none => none
        | some (key, rest2) =>
          match skipWs rest2 with
          | ':' :: rest3 =>
            match parseP fuel .val rest3 with
            | none => none
            | some (v, rest4) =>
              match skipWs rest4 with
              | c5 :: rest5 =>
                if c5 = ',' then parseP fuel (.members (pushField acc key v)) rest5
                else if c5 = rbrace then some (.obj (pushField acc key v), rest5)
                else none
              | [] => none
          | _ => none
      else none
    | [] => none
  | fuel + 1, PJob.elems acc, cs =>
    match parseP fuel .val cs with
    | none => none
    | some (v, rest) =>
      match skipWs rest with
      | c :: rest2 =>
          if c = ',' then parseP fuel (.elems (pushElem acc v)) rest2
          else if c = ']' then some (.arr (pushElem acc v), rest2)
          else none
      | [] => none

/-- `JSON.parse` on a UTF-8 byte buffer (must consume the whole input). -/
def jsonParse (b : Bytes) : Option Json :=
  let cs := b.map Char.ofNat
  match parseP (2 * cs.length + 4) .val cs with
  | some (j, rest) => if (skipWs rest).isEmpty then some j else none
  | none => none

mutual

/-- `JSON.stringify` of one value (line 121 of `src/index.js`; strings are
emitted without escape processing, which none of the considered manifests
needs). -/
def jsonStringify : Json → String
  | .null => "null"
  | .bool true => "true"
  | .bool false => "false"
  | .num n => toString n
  | .str s => "\"" ++ s ++ "\""
  | .arr l => "[" ++ strElems l ++ "]"
  | .obj l => "\x7b" ++ strFields l ++ "\x7d"

/-- `JSON.stringify` of array elements. -/
def strElems : JsonElems → String
  | .nil => ""
  | .cons j .nil => jsonStringify j
  | .cons j rest => jsonStringify j ++ "," ++ strElems rest

/-- `JSON.stringify` of object fields. -/
def strFields : JsonFields → String
  | .nil => ""
  | .cons k v .nil => "\"" ++ k ++ "\":" ++ jsonStringify v
  | .cons k v rest => "\"" ++ k ++ "\":" ++ jsonStringify v ++ "," ++ strFields rest

end

/- ## Package manifest reading (`getPackageJson`, lines 11-30) -/

/-- Is this character JavaScript trimmable whitespace? -/
def isWsChar (c : Char) : Bool :=
  c = ' ' || c = Char.ofNat 9 || c = Char.ofNat 10 || c = Char.ofNat 13

/-- JavaScript `String.prototype.trim` (structural model). -/
def jsTrim (s : String) : String :=
  String.mk (((s.toList.dropWhile isWsChar).reverse.dropWhile isWsChar).reverse)

/-- The `name`/`version` validation of `getPackageJson` (lines 23-28):
each must be a string with nonempty trim. -/
def validateManifest (j : Json) : Except Err Json :=
  match jGet j "name" with
  | some (.str s) =>
      if jsTrim s = "" then .error .invalidName
      else
        match jGet j "version" with
        | some (.str v) =>
            if jsTrim v = "" then .error .invalidVersion else .ok j
        | _ => .error .invalidVersion
  | _ => .error .invalidName

/-- Read and validate a manifest file at `p`. -/
def readManifestAt (fs : FS) (p : FPath) : Except Err Json :=
  match readF fs p with
  | .error e => .error e
  | .ok b =>
      match jsonParse b with
      | none => .error .jsonSyntax
      | some j => validateManifest j

/-- `getPackageJson(folder)` (lines 11-30): try `folder/package.json`,
fall back to `package.json` at the repository root, and fail only when
neither path exists. -/
def getPackageJson (fs : FS) (folder : FPath) : Except Err Json :=
  if (stat fs (folder ++ ["package.json"])).isSome then
    readManifestAt fs (folder ++ ["package.json"])
  else if (stat fs ["package.json"]).isSome then
    readManifestAt fs ["package.json"]
  else .error .manifestNotFound

/- ## The gzip-tar container (model of `compressing.tgz`)

The tgz container is modelled as a lossless serialization of the archive's
entry list (each tar entry: its path inside the archive, and its file
bytes or directory marker).  `encodeEntries` models writing the archive
stream; `decodeArchive` models extracting it. -/

/-- Serialize one string as its character count followed by its character
codes. -/
def encStr (s : String) : Bytes := s.toList.length :: (s.toList.map Char.toNat)

/-- Serialize an archive entry path. -/
def encPathArc (p : FPath) : Bytes := p.length :: (p.map encStr).flatten

/-- Serialize one archive entry. -/
def encEntryArc (e : FPath × FSEntry) : Bytes :=
  encPathArc e.1 ++
    (match e.2 with
     | .file d => 0 :: d.length :: d
     | .dir => [1])

/-- Serialize an archive entry list: the byte stream of the tgz model. -/
def encodeEntries (l : List (FPath × FSEntry)) : Bytes :=
  l.length :: (l.map encEntryArc).flatten

/-- Decode one string. -/
def decStr : Bytes → Option (String × Bytes)
  | [] => none
  | n :: rest =>
      if n ≤ rest.length then
        some (String.mk ((rest.take n).map Char.ofNat), rest.drop n)
      else none

/-- Decode a counted list of strings. -/
def decStrs : Nat → Bytes → Option (FPath × Bytes)
  | 0, b => some ([], b)
  | k + 1, b =>
      match decStr b with
      | none => none
      | some (s, rest) => (decStrs k rest).map (fun p => (s :: p.1, p.2))

/-- Decode an archive entry path. -/
def decPathArc : Bytes → Option (FPath × Bytes)
  | [] => none
  | n :: rest => decStrs n rest

/-- Decode one archive entry. -/
def decEntryArc (b : Bytes) : Option ((FPath × FSEntry) × Bytes) :=
  match decPathArc b with
  | none => none
  | some (p, rest) =>
      match rest with
      | 0 :: len :: rest2 =>
          if len ≤ rest2.length then
            some ((p, .file (rest2.take len)), rest2.drop len)
          else none
      | 1 :: rest2 => some ((p, .dir), rest2)
      | _ => none

/-- Decode a counted list of archive entries. -/
def decEntries : Nat → Bytes → Option (List (FPath × FSEntry) × Bytes)
  | 0, b => some ([], b)
  | k + 1, b =>
      match decEntryArc b with
      | none => none
      | some (e, rest) => (decEntries k rest).map (fun p => (e :: p.1, p.2))

/-- Extraction of a produced archive: recover the full entry list from the
archive byte stream (the whole stream must be consumed). -/
def decodeArchive (b : Bytes) : Option (List (FPath × FSEntry)) :=
  match b with
  | n :: rest =>
      match decEntries n rest with
      | some (l, []) => some l
      | _ => none
  | [] => none

/- ## `compressFolder` (lines 32-64) -/

/-- The oracle driving the fallible filesystem primitives of one
`compressFolder` invocation: the `Date.now()`-based staging directory
name, and whether each of `fsp.mkdir`, `fsp.cp` (per copied item name),
`compressing.tgz.compressDir` and `fsp.rm` fails environmentally. -/
structure FsOracle where
  tmpName : String
  mkdirFails : Bool
  cpFails : String → Bool
  compressFails : Bool
  rmFails : Bool

/-- `fsp.cp(src, dest, { recursive: true })` of one readdir item: fails on
the oracle's environmental flag, on a missing source (`ENOENT`), or when
the destination lies inside the source (Node's `ERR_FS_CP_EINVAL`
"cannot copy to a subdirectory of self"); otherwise prepends the copied
subtree. -/
def cpOne (fs : FS) (src dest : FPath) (failFlag : Bool) : Except Err FS :=
  if failFlag then .error .cpFailed
  else if (stat fs src).isNone then .error .cpMissing
  else if (stripPre src dest).isSome then .error .cpIntoSelf
  else .ok (rebase (subAt fs src) dest ++ fs)

/-- The `Promise.all` copy loop of lines 50-54, as a fold over the readdir
items (order is irrelevant to the result's entry set); returns the error
and the filesystem as of the failure, if any. -/
def copyItems (o : FsOracle) (folderPath vr : FPath) :
    List String → FS → Option Err × FS
  | [], fs => (none, fs)
  | item :: rest, fs =>
      match cpOne fs (folderPath ++ [item]) (vr ++ [item]) (o.cpFails item) with
      | .error e => (some e, fs)
      | .ok fs' => copyItems o folderPath vr rest fs'

/-- The `try` body of `compressFolder` (lines 45-60): make the staging
directories, copy every readdir item of the resolved folder into the
virtual root, compress the virtual root, write the archive file inside
the staging directory and read it back. -/
def compressBody (fs : FS) (folderPath : FPath) (archiveName : String)
    (o : FsOracle) : Except Err Bytes × FS :=
  let tmpDir : FPath := [o.tmpName]
  let vr : FPath := tmpDir ++ ["package"]
  if o.mkdirFails then (.error .mkdirFailed, fs)
  else
    let fs1 : FS := (vr, FSEntry.dir) :: (tmpDir, FSEntry.dir) :: fs
    let items := childNames fs1 folderPath
    match copyItems o folderPath vr items fs1 with
    | (some e, fs2) => (.error e, fs2)
    | (none, fs2) =>
        if o.compressFails then (.error .compressFailed, fs2)
        else
          let arch := encodeEntries (rebase (subAt fs2 vr) ["package"])
          let fs3 : FS := (tmpDir ++ [archiveName], FSEntry.file arch) :: fs2
          match readF fs3 (tmpDir ++ [archiveName]) with
          | .ok b => (.ok b, fs3)
          | .error e => (.error e, fs3)

/-- The `try`/`finally` of lines 45-63: run the body, then
`fsp.rm(tmpDir, { recursive: true, force: true })`.  A failing removal
throws out of the `finally`, replacing the body's outcome (JavaScript
semantics) and leaving the staging entries in place. -/
def withTmp (fs : FS) (folderPath : FPath) (archiveName : String)
    (o : FsOracle) : Except Err Bytes × FS :=
  let (res, fs') := compressBody fs folderPath archiveName o
  if o.rmFails then (.error .rmFailed, fs')
  else (res, rmAll fs' [o.tmpName])

/-- `compressFolder(folder, archiveName)` (lines 32-64): resolve the
folder — falling back to `process.cwd()` when it is absent or not a
directory, and throwing `Target folder not found` only when the working
directory also fails the check — then stage, compress and clean up. -/
def compressFolder (fs : FS) (folder : FPath) (archiveName : String)
    (o : FsOracle) : Except Err Bytes × FS :=
  if stat fs folder = some FSEntry.dir then
    withTmp fs folder archiveName o
  else if stat fs [] = some FSEntry.dir then
    withTmp fs [] archiveName o
  else (.error .targetNotFound, fs)

/- ## HTTP transport and `uploadArchive` (lines 64-173) -/

/-- The relevant content of a registry response after `sendHttpRequest`'s
JSON parsing: the HTTP status, and the `sessionId`/`url` fields used from
the start-publish response. -/
structure HttpResp where
  status : Nat
  sessionId : String
  url : String

/-- `sendHttpRequest` resolves exactly when `200 <= status < 300`
(line 82). -/
def is2xx (n : Nat) : Bool := decide (200 ≤ n) && decide (n < 300)

/-- One part of an encoded multipart form (`formdata-node` +
`form-data-encoder`, modelled structurally): a string field, or a `File`
part with bytes, filename and MIME type. -/
inductive FormPart where
  | strField (name value : String)
  | filePart (name : String) (data : Bytes) (filename : String) (mime : String)
deriving DecidableEq, Repr

/-- A request body: an encoded multipart form or raw bytes. -/
inductive ReqBody where
  | multipart (parts : List FormPart)
  | raw (data : Bytes)
deriving DecidableEq, Repr

/-- One HTTP request as issued by `sendHttpRequest`: URL, method, body,
headers, and the optional bearer token. -/
structure HttpRequest where
  url : String
  method : String
  body : ReqBody
  headers : List (String × String)
  auth : Option String
deriving DecidableEq, Repr

/-- The archive size cap of line 103: `512 * 1024 * 1024` bytes. -/
def sizeLimit : Nat := 512 * 1024 * 1024

/-- The fixed start-publish endpoint (line 130). -/
def startPublishUrl : String := "https://registry.pckgs.io/packages/start-publish"

/-- The fixed complete-publish endpoint (line 167). -/
def completePublishUrl : String := "https://registry.pckgs.io/packages/complete-publish"

/-- Read one optional companion document (lines 110-112):
`fs.existsSync(p) ? fs.readFileSync(p) : null`.  A directory at the path
makes `readFileSync` throw `EISDIR`. -/
def readSide (fs : FS) (folder : FPath) (name : String) : Except Err (Option Bytes) :=
  match stat fs (folder ++ [name]) with
  | none => .ok none
  | some (.file b) => .ok (some b)
  | some .dir => .error .eisdir

/-- The optional file part attached for one companion document
(lines 151-156). -/
def optFilePart (name : String) (b : Option Bytes) (filename : String) : List FormPart :=
  match b with
  | some d => [.filePart name d filename "text/markdown"]
  | none => []

/-- `uploadArchive(folder, file, accessToken, isPublic, metadata,
archiveName)` (lines 101-173; `archiveName` is accepted and unused, as in
the source).  The network oracle `netO` gives the response to the `i`-th
HTTP exchange.  Returns the outcome and the list of HTTP requests
actually issued, in order. -/
def uploadArchive (fs : FS) (folder : FPath) (file : Bytes)
    (accessToken : String) (isPublic : Bool) (metadata : Json)
    (netO : Nat → HttpResp) : Except Err Unit × List HttpRequest :=
  if file.length > sizeLimit then (.error .payloadTooLarge, [])
  else
    match readSide fs folder "README.md" with
    | .error e => (.error e, [])
    | .ok readme =>
    match readSide fs folder "LICENSE.md" with
    | .error e => (.error e, [])
    | .ok license =>
    match readSide fs folder "CHANGELOG.md" with
    | .error e => (.error e, [])
    | .ok changelog =>
      let checksumSha256 := sha256Base64 file
      let startReq : HttpRequest :=
        { url := startPublishUrl, method := "POST",
          body := .multipart
            [.strField "checksumSha256" checksumSha256,
             .strField "packageSize" (toString file.length),
             .strField "metadata" (jsonStringify metadata),
             .strField "isPublic" (if isPublic then "true" else "false")],
          headers := [("Content-Type", "multipart/form-data")],
          auth := some accessToken }
      let r0 := netO 0
      if !(is2xx r0.status) then (.error (.httpError r0.status), [startReq])
      else
        let putReq : HttpRequest :=
          { url := r0.url, method := "PUT", body := .raw file,
            headers := [("Content-Type", "application/gzip"),
                        ("Content-Length", toString file.length)],
            auth := none }
        let r1 := netO 1
        if !(is2xx r1.status) then
          (.error (.httpError r1.status), [startReq, putReq])
        else
          let completeReq : HttpRequest :=
            { url := completePublishUrl, method := "POST",
              body := .multipart
                ([.strField "sessionId" r0.sessionId]
                  ++ optFilePart "readme" readme "README.md"
                  ++ optFilePart "license" license "LICENSE.md"
                  ++ optFilePart "changelog" changelog "CHANGELOG.md"),
              headers := [("Content-Type", "multipart/form-data")],
              auth := some accessToken }
          let r2 := netO 2
          if !(is2xx r2.status) then
            (.error (.httpError r2.status), [startReq, putReq, completeReq])
          else (.ok (), [startReq, putReq, completeReq])

/- ## `run` (lines 175-230) -/

/-- The action inputs, one per `core.getInput` of lines 178-184 (empty
string = optional input unset; `is_public` is already parsed to a
boolean at the boundary). -/
structure RunInputs where
  package_folder : FPath
  access_token : String
  is_public : Bool
  version : String
  contributor_email : String
  contributor_name : String
  contributor_url : String

/-- `metadata.author = metadata.author || {}` followed by assigning one
author property (lines 192-204). -/
def setAuthorField (md : Json) (k v : String) : Json :=
  let a := match jGet md "author" with
           | some j => if jsTruthy j then j else .obj .nil
           | none => .obj .nil
  jSet md "author" (jSet a k (.str v))

/-- The metadata override block of lines 187-205. -/
def applyOverrides (md : Json) (inp : RunInputs) : Json :=
  let md1 := if inp.version = "" then md else jSet md "version" (.str inp.version)
  let md2 := if inp.contributor_email = "" then md1
             else setAuthorField md1 "email" inp.contributor_email
  let md3 := if inp.contributor_name = "" then md2
             else setAuthorField md2 "name" inp.contributor_name
  if inp.contributor_url = "" then md3
  else setAuthorField md3 "url" inp.contributor_url

/-- Template interpolation of `metadata.name` / `metadata.version`
(line 207); after validation and overrides these are strings. -/
def jStrVal (j : Json) (k : String) : String :=
  match jGet j k with
  | some (.str s) => s
  | some (.num n) => toString n
  | some _ => "undefined"
  | none => "undefined"

/-- The outcome of one `run()`: `core.setFailed`'s error if any, the
final filesystem, the HTTP requests issued, and `core.warning` messages. -/
structure RunResult where
  outcome : Option Err
  fs : FS
  trace : List HttpRequest
  warnings : List String

/-- The `finally` block of lines 214-227: when the (overridden) metadata
has truthy `name` and `version`, delete `<cwd>/<name>@<version>.tar.gz`
if it exists; a failing `unlinkSync` is caught and downgraded to a
`core.warning` without touching the outcome. -/
def finishRun (outcome : Option Err) (fs : FS) (trace : List HttpRequest)
    (md : Json) (unlinkFails : Bool) (archiveName : String) : RunResult :=
  if jsTruthyO (jGet md "name") && jsTruthyO (jGet md "version") then
    match stat fs [archiveName] with
    | some (.file _) =>
        if unlinkFails then
          { outcome := outcome, fs := fs, trace := trace,
            warnings := ["Failed to clean up archive"] }
        else
          { outcome := outcome, fs := fs.filter (fun e => !(e.1 == [archiveName])),
            trace := trace, warnings := [] }
    | some .dir =>
        { outcome := outcome, fs := fs, trace := trace,
          warnings := ["Failed to clean up archive"] }
    | none => { outcome := outcome, fs := fs, trace := trace, warnings := [] }
  else { outcome := outcome, fs := fs, trace := trace, warnings := [] }

/-- `run()` (lines 175-230): read the manifest, apply overrides, build the
archive name, compress, upload, and clean up in `finally`.  When
`getPackageJson` throws, `metadata` is still undefined and the cleanup is
skipped. -/
def run (inp : RunInputs) (fs : FS) (o : FsOracle) (unlinkFails : Bool)
    (netO : Nat → HttpResp) : RunResult :=
  match getPackageJson fs inp.package_folder with
  | .error e => { outcome := some e, fs := fs, trace := [], warnings := [] }
  | .ok md0 =>
      let md := applyOverrides md0 inp
      let archiveName := jStrVal md "name" ++ "@" ++ jStrVal md "version" ++ ".tar.gz"
      match compressFolder fs inp.package_folder archiveName o with
      | (.error e, fs2) => finishRun (some e) fs2 [] md unlinkFails archiveName
      | (.ok file, fs2) =>
          match uploadArchive fs2 inp.package_folder file inp.access_token
              inp.is_public md netO with
          | (.error e, tr) => finishRun (some e) fs2 tr md unlinkFails archiveName
          | (.ok _, tr) => finishRun none fs2 tr md unlinkFails archiveName

/- ## Predicates used in the theorem statements -/

/-- None of the three companion-document paths is a directory (so the
`existsSync`-guarded reads of lines 110-112 cannot throw `EISDIR`). -/
def sideReadsOkB (fs : FS) (folder : FPath) : Bool :=
  ["README.md", "LICENSE.md", "CHANGELOG.md"].all
    (fun n => !(stat fs (folder ++ [n]) == some FSEntry.dir))

/-- No entry lives at or below the top-level directory `[n]`. -/
def noTmpB (n : String) (fs : FS) : Bool :=
  fs.all (fun e => (stripPre [n] e.1).isNone)

/-- The companion document as the claim describes it: the bytes of the
file found directly under the source folder, if any. -/
def optRead (fs : FS) (folder : FPath) (name : String) : Option Bytes :=
  match stat fs (folder ++ [name]) with
  | some (.file b) => some b
  | _ => none

/-- The start-publish request as specified: a multipart form with exactly
the fields `checksumSha256` (base64 SHA-256 of the archive bytes),
`packageSize` (the archive's byte length), `metadata` (JSON-encoded) and
`isPublic` ("true"/"false"), with the bearer token. -/
def specStartReq (file : Bytes) (metadata : Json) (isPublic : Bool)
    (accessToken : String) : HttpRequest :=
  { url := startPublishUrl, method := "POST",
    body := .multipart
      [.strField "checksumSha256" (sha256Base64 file),
       .strField "packageSize" (toString file.length),
       .strField "metadata" (jsonStringify metadata),
       .strField "isPublic" (if isPublic then "true" else "false")],
    headers := [("Content-Type", "multipart/form-data")],
    auth := some accessToken }

/-- The transfer request as specified: a `PUT` of exactly the archive
bytes to the session URL with `Content-Type: application/gzip` and
`Content-Length` equal to the byte length, without bearer token. -/
def specPutReq (sessionUrl : String) (file : Bytes) : HttpRequest :=
  { url := sessionUrl, method := "PUT", body := .raw file,
    headers := [("Content-Type", "application/gzip"),
                ("Content-Length", toString file.length)],
    auth := none }

/-- The complete-publish request as specified: the `sessionId` field plus
one optional `text/markdown` file part per companion document present
directly under the source folder, with its exact bytes and fixed
filename. -/
def specCompleteReq (fs : FS) (folder : FPath) (sessionId : String)
    (accessToken : String) : HttpRequest :=
  { url := completePublishUrl, method := "POST",
    body := .multipart
      ([.strField "sessionId" sessionId]
        ++ optFilePart "readme" (optRead fs folder "README.md") "README.md"
        ++ optFilePart "license" (optRead fs folder "LICENSE.md") "LICENSE.md"
        ++ optFilePart "changelog" (optRead fs folder "CHANGELOG.md") "CHANGELOG.md"),
    headers := [("Content-Type", "multipart/form-data")],
    auth := some accessToken }


/- ## Codec roundtrip: extraction recovers exactly the encoded entries -/

theorem decStr_enc (s : String) (r : Bytes) : decStr (encStr s ++ r) = some (s, r) := by
  have hlen : (s.toList.map Char.toNat).length = s.toList.length := List.length_map _ _
  simp only [encStr, List.cons_append, decStr]
  rw [if_pos]
  · rw [List.take_left' hlen, List.drop_left' hlen]
    simp only [List.map_map]
    have h2 : s.toList.map (Char.ofNat ∘ Char.toNat) = s.toList := by
      simp [Function.comp_def, Char.ofNat_toNat]
    rw [h2]
    cases s
    simp [String.toList]
  · simp

theorem decStrs_enc (p : FPath) (r : Bytes) :
    decStrs p.length ((p.map encStr).flatten ++ r) = some (p, r) := by
  induction p generalizing r with
  | nil => simp [decStrs]
  | cons s p ih =>
      simp only [List.map_cons, List.flatten_cons, List.length_cons,
        List.append_assoc, decStrs, decStr_enc, ih]
      rfl

theorem decPathArc_enc (p : FPath) (r : Bytes) :
    decPathArc (encPathArc p ++ r) = some (p, r) := by
  simp only [encPathArc, List.cons_append, decPathArc, decStrs_enc]

theorem decEntryArc_enc (e : FPath × FSEntry) (r : Bytes) :
    decEntryArc (encEntryArc e ++ r) = some (e, r) := by
  obtain ⟨p, d⟩ := e
  cases d with
  | file b =>
      simp only [encEntryArc, decEntryArc, List.append_assoc, decPathArc_enc,
        List.cons_append]
      rw [if_pos (by simp)]
      rw [List.take_left' rfl, List.drop_left' rfl]
  | dir =>
      simp [encEntryArc, decEntryArc, List.append_assoc, decPathArc_enc,
        List.cons_append]

theorem decEntries_enc (l : List (FPath × FSEntry)) (r : Bytes) :
    decEntries l.length ((l.map encEntryArc).flatten ++ r) = some (l, r) := by
  induction l generalizing r with
  | nil => simp [decEntries]
  | cons e l ih =>
      simp only [List.map_cons, List.flatten_cons, List.length_cons,
        List.append_assoc, decEntries, decEntryArc_enc, ih]
      rfl

/-- Extraction is a left inverse of archive serialization. -/
theorem decodeArchive_enc (l : List (FPath × FSEntry)) :
    decodeArchive (encodeEntries l) = some l := by
  have h := decEntries_enc l []
  simp only [List.append_nil] at h
  simp [encodeEntries, decodeArchive, h]

/- ## Basic filesystem lemmas -/

theorem stripPre_eq_some {p q r : FPath} : stripPre p q = some r ↔ q = p ++ r := by
  induction p generalizing q with
  | nil => simp [stripPre]
  | cons a p ih =>
      cases q with
      | nil => simp [stripPre]
      | cons b q =>
          by_cases h : a = b
          · subst h
            simp [stripPre, ih]
          · simp only [stripPre, if_neg h, List.cons_append, List.cons.injEq]
            constructor
            · intro hh
              cases hh
            · rintro ⟨hb, -⟩
              exact absurd hb.symm h

theorem stripPre_self_append (p r : FPath) : stripPre p (p ++ r) = some r :=
  stripPre_eq_some.mpr rfl

theorem stripPre_none_of_head_ne {p q : FPath} (hp : p ≠ [])
    (h : q.head? ≠ p.head?) : stripPre p q = none := by
  cases p with
  | nil => exact absurd rfl hp
  | cons a p =>
      cases q with
      | nil => rfl
      | cons b q =>
          simp only [List.head?_cons] at h
          have hba : b ≠ a := fun hh => h (by rw [hh])
          simp only [stripPre]
          rw [if_neg (fun hh => hba hh.symm)]

theorem stat_of_mem_ne {fs : FS} {p : FPath}
    (h : ∀ e ∈ fs, e.1 ≠ p) : stat fs p = none := by
  induction fs with
  | nil => rfl
  | cons e fs ih =>
      simp only [stat]
      rw [if_neg (h e (by simp))]
      exact ih (fun x hx => h x (by simp [hx]))

theorem stat_append_of_left_ne {X fs : FS} {p : FPath}
    (h : ∀ e ∈ X, e.1 ≠ p) : stat (X ++ fs) p = stat fs p := by
  induction X with
  | nil => rfl
  | cons e X ih =>
      simp only [List.cons_append, stat]
      rw [if_neg (h e (by simp))]
      exact ih (fun x hx => h x (by simp [hx]))

theorem stat_isSome_of_mem {fs : FS} {p : FPath} {en : FSEntry}
    (h : (p, en) ∈ fs) : (stat fs p).isSome = true := by
  induction fs with
  | nil => simp at h
  | cons e fs ih =>
      simp only [stat]
      by_cases he : e.1 = p
      · simp [he]
      · rcases List.mem_cons.mp h with h1 | h1
        · exact absurd (by rw [← h1]) he
        · simp [he, ih h1]

theorem subAt_append (l1 l2 : FS) (p : FPath) :
    subAt (l1 ++ l2) p = subAt l1 p ++ subAt l2 p :=
  List.filterMap_append _ _ _

theorem subAt_nil_of_heads {l : FS} {p : FPath} (hp : p ≠ [])
    (h : ∀ e ∈ l, e.1.head? ≠ p.head?) : subAt l p = [] := by
  induction l with
  | nil => rfl
  | cons e l ih =>
      simp only [subAt, List.filterMap_cons]
      rw [stripPre_none_of_head_ne hp (h e (by simp))]
      exact ih (fun x hx => h x (by simp [hx]))

theorem freshB_heads {fs : FS} {n : String} (h : freshB fs n = true) :
    ∀ e ∈ fs, e.1.head? ≠ some n := by
  intro e he
  have := (List.all_eq_true.mp h) e he
  simpa using this

theorem mem_childNames {fs : FS} {p : FPath} {n : String} :
    n ∈ childNames fs p ↔ ∃ en, (p ++ [n], en) ∈ fs := by
  constructor
  · intro h
    rcases List.mem_filterMap.mp h with ⟨e, he, hfe⟩
    refine ⟨e.2, ?_⟩
    revert hfe
    cases hsp : stripPre p e.1 with
    | none => intro hfe; cases hfe
    | some rel =>
        cases rel with
        | nil => intro hfe; cases hfe
        | cons x r =>
            cases r with
            | nil =>
                intro hfe
                have hx : x = n := by cases hfe; rfl
                have hpath : e.1 = p ++ [x] := stripPre_eq_some.mp hsp
                subst hx
                rw [← hpath]
                exact he
            | cons y r2 => intro hfe; cases hfe
  · rintro ⟨en, hmem⟩
    apply List.mem_filterMap.mpr
    refine ⟨(p ++ [n], en), hmem, ?_⟩
    rw [stripPre_self_append]

theorem childNames_nodup {fs : FS} (h : pathsNodup fs) (p : FPath) :
    (childNames fs p).Nodup := by
  induction fs with
  | nil => exact List.nodup_nil
  | cons e fs ih =>
      have h2 : pathsNodup fs := (List.nodup_cons.mp h).2
      have hne : e.1 ∉ fs.map (·.1) := (List.nodup_cons.mp h).1
      simp only [childNames, List.filterMap_cons]
      cases hsp : stripPre p e.1 with
      | none => exact ih h2
      | some rel =>
          cases rel with
          | nil => exact ih h2
          | cons x r =>
              cases r with
              | cons y r2 => exact ih h2
              | nil =>
                  apply List.nodup_cons.mpr
                  refine ⟨?_, ih h2⟩
                  intro hx
                  rcases (@mem_childNames fs p x).mp hx with ⟨en, hmem⟩
                  have hpath : e.1 = p ++ [x] := stripPre_eq_some.mp hsp
                  exact hne (by
                    rw [hpath]
                    exact List.mem_map.mpr ⟨(p ++ [x], en), hmem, rfl⟩)

theorem mem_strictAt {fs : FS} {p : FPath} {x : FPath × FSEntry} :
    x ∈ strictAt fs p → ∃ c r, x.1 = c :: r ∧ (p ++ c :: r, x.2) ∈ fs := by
  intro h
  rcases List.mem_filterMap.mp h with ⟨e, he, hfe⟩
  revert hfe
  cases hsp : stripPre p e.1 with
  | none => intro hfe; cases hfe
  | some rel =>
      cases rel with
      | nil => intro hfe; cases hfe
      | cons c r =>
          intro hfe
          cases hfe
          refine ⟨c, r, rfl, ?_⟩
          have hpath : e.1 = p ++ c :: r := stripPre_eq_some.mp hsp
          rw [← hpath]
          exact he

/- ## Concrete fixtures used by witnesses and counterexamples -/

/-- Character codes of a string. -/
def strBytes (s : String) : Bytes := s.toList.map Char.toNat

/-- A well-formed package manifest. -/
def wManifest : String := "\x7b\"name\":\"demo\",\"version\":\"1.0.0\"\x7d"

/-- A small well-formed filesystem: working directory, a package folder
with manifest, readme, a file and a subdirectory, and an unrelated file. -/
def wFs : FS :=
  [([], FSEntry.dir), (["pkg"], FSEntry.dir),
   (["pkg", "package.json"], FSEntry.file (strBytes wManifest)),
   (["pkg", "README.md"], FSEntry.file [72, 105]),
   (["pkg", "a.txt"], FSEntry.file [1, 2]),
   (["pkg", "sub"], FSEntry.dir),
   (["pkg", "sub", "b.bin"], FSEntry.file [3, 4, 5]),
   (["other.txt"], FSEntry.file [9])]

/-- A small metadata object. -/
def wMd : Json :=
  Json.obj (.cons "name" (.str "demo") (.cons "version" (.str "1.0.0") .nil))

/-- A filesystem whose package folder lacks `package.json` while the
repository root has a valid one. -/
def w10Fs : FS :=
  [([], FSEntry.dir), (["app"], FSEntry.dir),
   (["app", "index.txt"], FSEntry.file [7]),
   (["package.json"], FSEntry.file (strBytes wManifest))]

/-- A tiny valid source tree for the cleanup counterexample. -/
def cx4Fs : FS := [(["pkg"], FSEntry.dir), (["pkg", "a"], FSEntry.file [1])]

/-- An oracle whose staging-directory removal fails. -/
def cx4ORm : FsOracle := ⟨"T", false, fun _ => false, false, true⟩

/-- A fully benign filesystem oracle. -/
def wOBenign : FsOracle := ⟨"T", false, fun _ => false, false, false⟩

/-- A working directory with one data file and no `pkg` folder. -/
def cx5Fs : FS := [([], FSEntry.dir), (["data.bin"], FSEntry.file [5])]

/-- Inputs for a full `run`: package folder `pkg`, all optional inputs
unset. -/
def cx8Inp : RunInputs := ⟨["pkg"], "tok", true, "", "", "", ""⟩

/-- A valid repository for a full `run`. -/
def cx8Fs : FS :=
  [([], FSEntry.dir), (["pkg"], FSEntry.dir),
   (["pkg", "package.json"], FSEntry.file (strBytes wManifest)),
   (["pkg", "a.txt"], FSEntry.file [1, 2])]

/-- A working directory used as the source folder itself. -/
def cx1Fs : FS := [([], FSEntry.dir), (["notes.txt"], FSEntry.file [7, 8])]

/-- A registry that accepts everything. -/
def wNet200 : Nat → HttpResp := fun _ => ⟨200, "sid", "https://upload.example/dest"⟩

/-- A registry that rejects everything. -/
def wNet500 : Nat → HttpResp := fun _ => ⟨500, "", ""⟩

/- ## Lemmas about the companion-document reads -/

theorem readSide_eq {fs : FS} {folder : FPath} {name : String}
    (h : stat fs (folder ++ [name]) ≠ some FSEntry.dir) :
    readSide fs folder name = .ok (optRead fs folder name) := by
  unfold readSide optRead
  cases hs : stat fs (folder ++ [name]) with
  | none => rfl
  | some en =>
      cases en with
      | file b => rfl
      | dir => exact absurd hs h

theorem sideReads_three {fs : FS} {folder : FPath}
    (h : sideReadsOkB fs folder = true) :
    stat fs (folder ++ ["README.md"]) ≠ some FSEntry.dir ∧
    stat fs (folder ++ ["LICENSE.md"]) ≠ some FSEntry.dir ∧
    stat fs (folder ++ ["CHANGELOG.md"]) ≠ some FSEntry.dir := by
  simpa [sideReadsOkB] using h

/- ## Claim theorems about `uploadArchive` -/

/-- C2: an archive of at most `512 * 1024 * 1024` bytes proceeds to the
StartPublish phase (the first issued request is the start-publish form),
while a larger archive fails immediately with the payload-too-large error
and no HTTP request of any kind is issued. -/
theorem claim_C2_size_gate (fs : FS) (folder : FPath) (file : Bytes)
    (tok : String) (pub : Bool) (md : Json) (netO : Nat → HttpResp)
    (hside : sideReadsOkB fs folder = true) :
    if file.length > sizeLimit then
      uploadArchive fs folder file tok pub md netO = (.error .payloadTooLarge, [])
    else
      (uploadArchive fs folder file tok pub md netO).2.head?
        = some (specStartReq file md pub tok) := by
  obtain ⟨h1, h2, h3⟩ := sideReads_three hside
  by_cases hbig : file.length > sizeLimit
  · rw [if_pos hbig]
    simp [uploadArchive, hbig]
  · rw [if_neg hbig]
    simp only [uploadArchive, if_neg hbig, readSide_eq h1, readSide_eq h2,
      readSide_eq h3]
    by_cases s0 : is2xx (netO 0).status = true <;>
      by_cases s1 : is2xx (netO 1).status = true <;>
        by_cases s2 : is2xx (netO 2).status = true <;>
          simp [s0, s1, s2, specStartReq]

theorem claim_C2_size_gate_witness :
    sideReadsOkB wFs ["pkg"] = true ∧
    (if ([1, 2, 3] : Bytes).length > sizeLimit then
      uploadArchive wFs ["pkg"] [1, 2, 3] "tok" true wMd wNet200
        = (.error .payloadTooLarge, [])
    else
      (uploadArchive wFs ["pkg"] [1, 2, 3] "tok" true wMd wNet200).2.head?
        = some (specStartReq [1, 2, 3] wMd true "tok")) :=
  ⟨by decide, claim_C2_size_gate wFs ["pkg"] [1, 2, 3] "tok" true wMd wNet200 (by decide)⟩

/-- C3: phase ordering.  In every execution of `uploadArchive`, a transfer
`PUT` appears in the issued-request trace only if the StartPublish
exchange returned a 2xx status, and a complete-publish request appears
only if both the StartPublish and the Transfer exchanges returned 2xx
statuses. -/
theorem claim_C3_phase_ordering (fs : FS) (folder : FPath) (file : Bytes)
    (tok : String) (pub : Bool) (md : Json) (netO : Nat → HttpResp) :
    (((uploadArchive fs folder file tok pub md netO).2.all
        (fun r => !(r.method == "PUT") || is2xx (netO 0).status))
      && ((uploadArchive fs folder file tok pub md netO).2.all
        (fun r => !((r.method == "POST") && (r.url == completePublishUrl))
            || (is2xx (netO 0).status && is2xx (netO 1).status)))) = true := by
  by_cases hbig : file.length > sizeLimit
  · simp [uploadArchive, hbig]
  · cases h1 : readSide fs folder "README.md" with
    | error e => simp [uploadArchive, hbig, h1]
    | ok readme =>
    cases h2 : readSide fs folder "LICENSE.md" with
    | error e => simp [uploadArchive, hbig, h1, h2]
    | ok license =>
    cases h3 : readSide fs folder "CHANGELOG.md" with
    | error e => simp [uploadArchive, hbig, h1, h2, h3]
    | ok changelog =>
        by_cases s0 : is2xx (netO 0).status = true <;>
          by_cases s1 : is2xx (netO 1).status = true <;>
            by_cases s2 : is2xx (netO 2).status = true <;>
              simp [uploadArchive, hbig, h1, h2, h3, s0, s1, s2,
                startPublishUrl, completePublishUrl]

/-- C6: in a run that reaches the transfer phase, the start-publish
request is a multipart form with exactly the fields `checksumSha256`
(base64 SHA-256 of the archive bytes), `packageSize` (the archive's byte
length), `metadata` (JSON-encoded) and `isPublic` ("true"/"false"), and
the subsequent transfer is a `PUT` of exactly those archive bytes to the
session URL with `Content-Type: application/gzip` and `Content-Length`
equal to that byte length. -/
theorem claim_C6_wire_contents (fs : FS) (folder : FPath) (file : Bytes)
    (tok : String) (pub : Bool) (md : Json) (netO : Nat → HttpResp)
    (hsize : file.length ≤ sizeLimit) (hside : sideReadsOkB fs folder = true)
    (h0 : is2xx (netO 0).status = true) :
    (uploadArchive fs folder file tok pub md netO).2.head?
      = some (specStartReq file md pub tok)
    ∧ (uploadArchive fs folder file tok pub md netO).2[1]?
      = some (specPutReq (netO 0).url file) := by
  obtain ⟨h1, h2, h3⟩ := sideReads_three hside
  have hbig : ¬ file.length > sizeLimit := by omega
  simp only [uploadArchive, if_neg hbig, readSide_eq h1, readSide_eq h2,
    readSide_eq h3]
  by_cases s1 : is2xx (netO 1).status = true <;>
    by_cases s2 : is2xx (netO 2).status = true <;>
      simp [h0, s1, s2, specStartReq, specPutReq]

theorem claim_C6_wire_contents_witness :
    ([1, 2, 3] : Bytes).length ≤ sizeLimit ∧
    ((uploadArchive wFs ["pkg"] [1, 2, 3] "tok" false wMd wNet200).2.head?
        = some (specStartReq [1, 2, 3] wMd false "tok")
      ∧ (uploadArchive wFs ["pkg"] [1, 2, 3] "tok" false wMd wNet200).2[1]?
        = some (specPutReq (wNet200 0).url [1, 2, 3])) :=
  ⟨by decide,
   claim_C6_wire_contents wFs ["pkg"] [1, 2, 3] "tok" false wMd wNet200
     (by decide) (by decide) (by decide)⟩

/-- C7 (amended): the checksum operation of line 114 is a total pure
function; an empty input is not rejected — it yields the base64-encoded
SHA-256 digest of the empty byte sequence and `uploadArchive` proceeds to
StartPublish with it. -/
theorem claim_C7_checksum_total (fs : FS) (folder : FPath) (tok : String)
    (pub : Bool) (md : Json) (netO : Nat → HttpResp)
    (hside : sideReadsOkB fs folder = true) :
    sha256Base64 [] = "47DEQpj8HBSa+/TImW+5JCeuQeRkm5NMpJWZG3hSuFU="
    ∧ (uploadArchive fs folder [] tok pub md netO).2.head?
        = some (specStartReq [] md pub tok) := by
  refine ⟨by decide, ?_⟩
  obtain ⟨h1, h2, h3⟩ := sideReads_three hside
  have hbig : ¬ ([] : Bytes).length > sizeLimit := by simp [sizeLimit]
  simp only [uploadArchive, if_neg hbig, readSide_eq h1, readSide_eq h2,
    readSide_eq h3]
  by_cases s0 : is2xx (netO 0).status = true <;>
    by_cases s1 : is2xx (netO 1).status = true <;>
      by_cases s2 : is2xx (netO 2).status = true <;>
        simp [s0, s1, s2, specStartReq]

theorem claim_C7_checksum_total_witness :
    sideReadsOkB wFs ["pkg"] = true ∧
    (sha256Base64 [] = "47DEQpj8HBSa+/TImW+5JCeuQeRkm5NMpJWZG3hSuFU="
      ∧ (uploadArchive wFs ["pkg"] [] "tok" true wMd wNet200).2.head?
          = some (specStartReq [] wMd true "tok")) :=
  ⟨by decide, claim_C7_checksum_total wFs ["pkg"] "tok" true wMd wNet200 (by decide)⟩

/-- C7 counterexample to the claim as stated: the code has no
empty-input rejection — on an empty archive the checksum is computed (it
is the digest of the empty sequence) and the whole upload succeeds; no
`InvalidInputError` occurs. -/
theorem claim_C7_counterexample :
    (uploadArchive wFs ["pkg"] [] "tok" true wMd wNet200).1 = .ok ()
    ∧ sha256Base64 [] = "47DEQpj8HBSa+/TImW+5JCeuQeRkm5NMpJWZG3hSuFU=" :=
  ⟨rfl, by decide⟩

/-- C9: each companion document is looked up directly under the source
folder and is independently optional: when the complete-publish request
is issued it carries, besides `sessionId`, exactly one `text/markdown`
file part per companion file present (with its exact bytes and fixed
filename), and missing companion files are simply absent from the
encoded form without causing an error. -/
theorem claim_C9_companion_docs (fs : FS) (folder : FPath) (file : Bytes)
    (tok : String) (pub : Bool) (md : Json) (netO : Nat → HttpResp)
    (hsize : file.length ≤ sizeLimit) (hside : sideReadsOkB fs folder = true)
    (h0 : is2xx (netO 0).status = true) (h1 : is2xx (netO 1).status = true) :
    (uploadArchive fs folder file tok pub md netO).2.drop 2
      = [specCompleteReq fs folder (netO 0).sessionId tok] := by
  obtain ⟨hr, hl, hc⟩ := sideReads_three hside
  have hbig : ¬ file.length > sizeLimit := by omega
  simp only [uploadArchive, if_neg hbig, readSide_eq hr, readSide_eq hl,
    readSide_eq hc]
  by_cases s2 : is2xx (netO 2).status = true <;>
    simp [h0, h1, s2, specCompleteReq]

theorem claim_C9_companion_docs_witness :
    sideReadsOkB wFs ["pkg"] = true ∧
    (uploadArchive wFs ["pkg"] [1, 2] "tok" true wMd wNet200).2.drop 2
      = [specCompleteReq wFs ["pkg"] (wNet200 0).sessionId "tok"] :=
  ⟨by decide,
   claim_C9_companion_docs wFs ["pkg"] [1, 2] "tok" true wMd wNet200
     (by decide) (by decide) (by decide) (by decide)⟩

/- ## Claim theorem about `getPackageJson` -/

theorem validateManifest_ne_notFound (j : Json) :
    validateManifest j ≠ Except.error Err.manifestNotFound := by
  unfold validateManifest
  repeat' split
  all_goals simp

theorem readManifestAt_ne_notFound {fs : FS} {p : FPath}
    (h : (stat fs p).isSome = true) :
    readManifestAt fs p ≠ .error .manifestNotFound := by
  unfold readManifestAt readF
  cases hs : stat fs p with
  | none => rw [hs] at h; simp at h
  | some en =>
      cases en with
      | dir => simp
      | file b =>
          rcases hp : jsonParse b with _ | j
          · simp [hp]
          · simpa [hp] using validateManifest_ne_notFound j

/-- C10: when `package.json` is absent from the given package folder,
`getPackageJson` does not fail immediately — it behaves exactly as if it
had been called on the repository root (reading the root `package.json`,
so the metadata may come from a different folder than the one being
archived), and it reports the not-found error exactly when the file
exists in neither location. -/
theorem claim_C10_manifest_fallback (fs : FS) (folder : FPath)
    (habs : stat fs (folder ++ ["package.json"]) = none) :
    getPackageJson fs folder = getPackageJson fs []
    ∧ (getPackageJson fs folder = .error .manifestNotFound
        ↔ stat fs ["package.json"] = none) := by
  have hI : (stat fs (folder ++ ["package.json"])).isSome = false := by
    rw [habs]; rfl
  constructor
  · simp only [getPackageJson, hI, Bool.false_eq_true, if_false,
      List.nil_append]
    cases hr : (stat fs ["package.json"]).isSome <;> simp [hr]
  · simp only [getPackageJson, hI, Bool.false_eq_true, if_false]
    cases hr : (stat fs ["package.json"]).isSome with
    | false =>
        simp only [hr, Bool.false_eq_true, if_false]
        have hnone : stat fs ["package.json"] = none := by
          cases hx : stat fs ["package.json"]
          · rfl
          · rw [hx] at hr; simp at hr
        simp [hnone]
    | true =>
        simp only [hr, if_true]
        constructor
        · intro hcontra
          exact absurd hcontra (readManifestAt_ne_notFound hr)
        · intro hnone
          rw [hnone] at hr
          simp at hr

theorem claim_C10_manifest_fallback_witness :
    getPackageJson w10Fs ["app"] = getPackageJson w10Fs []
    ∧ (getPackageJson w10Fs ["app"] = .error .manifestNotFound
        ↔ stat w10Fs ["package.json"] = none) :=
  claim_C10_manifest_fallback w10Fs ["app"] rfl

/- ## Claim theorems about `compressFolder` cleanup (C4, C8) -/

theorem noTmpB_of_fresh {fs : FS} {n : String} (h : freshB fs n = true) :
    noTmpB n fs = true := by
  apply List.all_eq_true.mpr
  intro e he
  have hh := freshB_heads h e he
  rw [stripPre_none_of_head_ne (by simp) (by simpa using hh)]
  rfl

theorem noTmpB_rmAll (fs : FS) (n : String) : noTmpB n (rmAll fs [n]) = true := by
  apply List.all_eq_true.mpr
  intro e he
  have := List.mem_filter.mp he
  simpa using this.2

/-- C4 (amended): `compressFolder` invokes the recursive forced removal
of the staging directory on every exit path after staging begins, so
whenever the removal operation itself succeeds (`rmFails = false`) no
staging entry remains on disk, whether the function produced an archive
or raised an error (under any combination of mkdir/copy/compress
failures). -/
theorem claim_C4_staging_cleanup (fs : FS) (folder : FPath)
    (archiveName : String) (o : FsOracle)
    (hfresh : freshB fs o.tmpName = true) (hrm : o.rmFails = false) :
    noTmpB o.tmpName (compressFolder fs folder archiveName o).2 = true := by
  unfold compressFolder withTmp
  split
  · simp only [hrm, Bool.false_eq_true, if_false]
    exact noTmpB_rmAll _ _
  · split
    · simp only [hrm, Bool.false_eq_true, if_false]
      exact noTmpB_rmAll _ _
    · exact noTmpB_of_fresh hfresh

/-- C4 counterexample to the claim as stated: when the `finally`'s
`fsp.rm` itself fails, `compressFolder` raises and the staging directory
remains on disk. -/
theorem claim_C4_counterexample :
    (compressFolder cx4Fs ["pkg"] "x.tar.gz" cx4ORm).1 = .error .rmFailed
    ∧ noTmpB "T" (compressFolder cx4Fs ["pkg"] "x.tar.gz" cx4ORm).2 = false :=
  ⟨rfl, rfl⟩

theorem claim_C4_staging_cleanup_witness :
    freshB cx4Fs "T" = true
    ∧ noTmpB "T" (compressFolder cx4Fs ["pkg"] "x.tar.gz" wOBenign).2 = true :=
  ⟨by decide, claim_C4_staging_cleanup cx4Fs ["pkg"] "x.tar.gz" wOBenign (by decide) rfl⟩

/- ## Claim theorems about folder resolution (C5) -/

/-- C5 (amended): for an input path that does not exist or is not a
directory, `compressFolder` does not fail with the target-not-found
(invalid input) error: it silently falls back to the working directory,
stages there, and the copy loop then fails (the staging directory,
created under the working directory, is one of the items and cannot be
copied into itself), so the invocation still errors before producing any
archive — but with a copy error, not the invalid-input error; the
target-not-found error occurs only when the working directory itself is
absent or not a directory. -/
theorem claim_C5_fallback_to_cwd (fs : FS) (folder : FPath)
    (archiveName : String) (o : FsOracle)
    (hnodir : stat fs folder ≠ some FSEntry.dir)
    (hcwd : stat fs [] = some FSEntry.dir)
    (hmk : o.mkdirFails = false)
    (hcp : o.cpFails o.tmpName = false)
    (hrm : o.rmFails = false) :
    (compressFolder fs folder archiveName o).1 = .error .cpIntoSelf := by
  unfold compressFolder
  rw [if_neg hnodir, if_pos hcwd]
  unfold withTmp compressBody
  simp only [hmk, Bool.false_eq_true, if_false, List.cons_append,
    List.nil_append]
  have hchild :
      childNames (([o.tmpName, "package"], FSEntry.dir) :: ([o.tmpName], FSEntry.dir) :: fs) []
        = o.tmpName :: childNames fs [] := by
    simp [childNames, List.filterMap_cons, stripPre]
  rw [hchild]
  simp only [copyItems, cpOne, hcp, Bool.false_eq_true, if_false,
    List.nil_append]
  have hstat :
      stat (([o.tmpName, "package"], FSEntry.dir) :: ([o.tmpName], FSEntry.dir) :: fs)
        [o.tmpName] = some FSEntry.dir := by
    simp [stat]
  rw [hstat]
  have hself : (stripPre [o.tmpName] ([o.tmpName, "package"] ++ [o.tmpName])).isSome = true := by
    simp [stripPre]
  simp only [List.cons_append, List.nil_append] at hself ⊢
  simp [hself, hrm]

/-- C5 counterexample to the claim as stated: on a nonexistent input path
the function does not fail with the invalid-input (target-not-found)
error — it falls back to the working directory and dies in the copy loop
with the copy-into-self error. -/
theorem claim_C5_counterexample :
    (compressFolder cx5Fs ["missing"] "x.tar.gz" wOBenign).1 = .error .cpIntoSelf
    ∧ (compressFolder cx5Fs ["missing"] "x.tar.gz" wOBenign).1 ≠ .error .targetNotFound :=
  ⟨rfl, by decide⟩

theorem claim_C5_fallback_to_cwd_witness :
    stat cx5Fs ["missing"] ≠ some FSEntry.dir
    ∧ (compressFolder cx5Fs ["missing"] "x.tar.gz" wOBenign).1 = .error .cpIntoSelf :=
  ⟨by decide,
   claim_C5_fallback_to_cwd cx5Fs ["missing"] "x.tar.gz" wOBenign
     (by decide) rfl rfl rfl rfl⟩

/- ## Claim theorems about cleanup policy (C8) -/

theorem finishRun_outcome (oc : Option Err) (fs : FS) (tr : List HttpRequest)
    (md : Json) (uf : Bool) (n : String) :
    (finishRun oc fs tr md uf n).outcome = oc := by
  unfold finishRun
  repeat' split
  all_goals rfl

/-- C8 (amended): the archive-file cleanup in `run`'s `finally` is
downgraded to a warning — the run's outcome is identical whether
`unlinkSync` fails or succeeds, so it never masks an original error nor
fails an otherwise-successful publish.  The staging-directory removal
inside `compressFolder`, however, is not downgraded: when `fsp.rm`
fails, its error becomes the function's result on every resolved path,
replacing even a successful archive build. -/
theorem claim_C8_cleanup_policy (inp : RunInputs) (fs : FS) (o : FsOracle)
    (netO : Nat → HttpResp) (archiveName : String)
    (hres : stat fs inp.package_folder = some FSEntry.dir
        ∨ stat fs [] = some FSEntry.dir) :
    (run inp fs o true netO).outcome = (run inp fs o false netO).outcome
    ∧ (compressFolder fs inp.package_folder archiveName
          (FsOracle.mk o.tmpName o.mkdirFails o.cpFails o.compressFails true)).1
        = .error .rmFailed := by
  constructor
  · unfold run
    split
    · rfl
    · dsimp only
      split
      · rw [finishRun_outcome, finishRun_outcome]
      · split
        · rw [finishRun_outcome, finishRun_outcome]
        · rw [finishRun_outcome, finishRun_outcome]
  · unfold compressFolder
    by_cases h2 : stat fs inp.package_folder = some FSEntry.dir
    · rw [if_pos h2]
      unfold withTmp
      simp
    · rcases hres with h | h
      · exact absurd h h2
      · rw [if_neg h2, if_pos h]
        unfold withTmp
        simp

/-- C8 counterexample to the claim as stated: an otherwise fully
successful publish (valid manifest, successful staging and compression,
registry accepting all three phases) is turned into a failure by a
failing staging-directory removal — the cleanup failure is escalated,
not downgraded to a warning. -/
theorem claim_C8_counterexample :
    (run cx8Inp cx8Fs cx4ORm false wNet200).outcome = some .rmFailed
    ∧ (run cx8Inp cx8Fs wOBenign false wNet200).outcome = none :=
  ⟨rfl, rfl⟩

theorem claim_C8_cleanup_policy_witness :
    (stat cx8Fs cx8Inp.package_folder = some FSEntry.dir
        ∨ stat cx8Fs [] = some FSEntry.dir)
    ∧ ((run cx8Inp cx8Fs wOBenign true wNet200).outcome
          = (run cx8Inp cx8Fs wOBenign false wNet200).outcome
      ∧ (compressFolder cx8Fs cx8Inp.package_folder "a.tar.gz"
            (FsOracle.mk wOBenign.tmpName wOBenign.mkdirFails wOBenign.cpFails
              wOBenign.compressFails true)).1
          = .error .rmFailed) :=
  ⟨Or.inl rfl,
   claim_C8_cleanup_policy cx8Inp cx8Fs wOBenign wNet200 "a.tar.gz" (Or.inl rfl)⟩

/- ## Lemmas toward the archive-layout theorem (C1) -/

theorem stripPre_append (p p' q : FPath) :
    stripPre (p ++ p') q = (stripPre p q).bind (stripPre p') := by
  induction p generalizing q with
  | nil => simp [stripPre]
  | cons a p ih =>
      cases q with
      | nil => simp [stripPre]
      | cons b q =>
          by_cases h : a = b
          · subst h
            simp [stripPre, ih]
          · simp [stripPre, h]

theorem subAt_flatten (L : List FS) (p : FPath) :
    subAt L.flatten p = (L.map (fun l => subAt l p)).flatten := by
  induction L with
  | nil => rfl
  | cons l L ih => simp [List.flatten_cons, subAt_append, ih]

theorem subAt_rebase_append (l : List (FPath × FSEntry)) (p q : FPath) :
    subAt (rebase l (p ++ q)) p = rebase l q := by
  unfold subAt rebase
  rw [List.filterMap_map]
  have hpt : ∀ re : FPath × FSEntry,
      ((fun e => (stripPre p e.1).map (fun rel => (rel, e.2))) ∘
        (fun re => (p ++ q ++ re.1, re.2))) re = some (q ++ re.1, re.2) := by
    intro re
    simp only [Function.comp]
    rw [List.append_assoc, stripPre_self_append]
    rfl
  calc l.filterMap ((fun e => (stripPre p e.1).map (fun rel => (rel, e.2))) ∘
        (fun re => (p ++ q ++ re.1, re.2)))
      = l.filterMap (fun re => some (q ++ re.1, re.2)) := by
        exact List.filterMap_congr (fun re _ => hpt re)
    _ = l.map (fun re => (q ++ re.1, re.2)) := by
        rw [show (fun re : FPath × FSEntry => some (q ++ re.1, re.2))
              = some ∘ (fun re : FPath × FSEntry => (q ++ re.1, re.2)) from rfl,
          List.filterMap_eq_map]

/-- Keep only the entries whose relative path starts with the segment
`n`. -/
def keepHd (n : String) (x : FPath × FSEntry) : Option (FPath × FSEntry) :=
  if x.1.head? = some n then some x else none

theorem bucketEq (fs : FS) (p : FPath) (n : String) :
    rebase (subAt fs (p ++ [n])) [n] = (strictAt fs p).filterMap (keepHd n) := by
  unfold rebase subAt strictAt
  rw [List.map_filterMap, List.filterMap_filterMap]
  apply List.filterMap_congr
  intro e _
  rw [stripPre_append]
  cases hsp : stripPre p e.1 with
  | none => rfl
  | some rel =>
      cases rel with
      | nil => rfl
      | cons c r =>
          simp only [Option.bind_some]
          by_cases hc : n = c
          · subst hc
            simp [stripPre, keepHd]
          · have h1 : stripPre [n] (c :: r) = none := by simp [stripPre, hc]
            simp [h1, keepHd, Ne.symm hc]

theorem flatten_reverse_perm (L : List FS) :
    List.Perm (L.reverse).flatten L.flatten := by
  induction L with
  | nil => exact List.Perm.refl _
  | cons l L ih =>
      simp only [List.reverse_cons, List.flatten_append, List.flatten_cons,
        List.flatten_nil, List.append_nil]
      exact List.Perm.trans List.perm_append_comm (ih.append_left l)

theorem closedB_inits {fs : FS} (h : closedB fs = true) :
    ∀ e ∈ fs, ∀ q : FPath, q ≠ [] → q <+: e.1 → ∃ en, (q, en) ∈ fs := by
  intro e he q hq hpre
  have h1 := List.all_eq_true.mp h e he
  have hqmem : q ∈ e.1.inits.filter (fun q => !q.isEmpty) := by
    apply List.mem_filter.mpr
    refine ⟨(List.mem_inits q e.1).mpr hpre, ?_⟩
    cases q with
    | nil => exact absurd rfl hq
    | cons a q => rfl
  have h2 := List.all_eq_true.mp h1 q hqmem
  rcases List.any_eq_true.mp h2 with ⟨e', he', hbeq⟩
  have : e'.1 = q := by simpa using hbeq
  exact ⟨e'.2, by rw [← this]; exact he'⟩

theorem flatten_const_nil (its : List String) :
    ((its.map (fun _ => ([] : List (FPath × FSEntry)))).flatten) = [] := by
  induction its with
  | nil => rfl
  | cons a its ih => simp [ih]

theorem join_buckets_perm (items : List String) (hnd : items.Nodup) :
    ∀ S : List (FPath × FSEntry),
      (∀ x ∈ S, ∃ n, x.1.head? = some n ∧ n ∈ items) →
      List.Perm ((items.map (fun n => S.filterMap (keepHd n))).flatten) S := by
  intro S
  induction S generalizing items with
  | nil =>
      intro _
      simp only [List.filterMap_nil]
      rw [flatten_const_nil]
  | cons x S ihS =>
      intro hcov
      obtain ⟨n0, hhd, hn0⟩ := hcov x (by simp)
      obtain ⟨p, q, rfl⟩ := List.append_of_mem hn0
      have hnd2 := List.nodup_middle.mp hnd
      have hn0pq : n0 ∉ p ++ q := (List.nodup_cons.mp hnd2).1
      have hndpq : (p ++ q).Nodup := (List.nodup_cons.mp hnd2).2
      have hkeep_x_ne : ∀ m, m ≠ n0 → keepHd m x = none := by
        intro m hm
        unfold keepHd
        rw [hhd, if_neg (fun hh : some n0 = some m => hm (Option.some.inj hh).symm)]
      have hbp : p.map (fun n => (x :: S).filterMap (keepHd n))
          = p.map (fun n => S.filterMap (keepHd n)) := by
        apply List.map_congr_left
        intro n hn
        have hne : n ≠ n0 := fun hh =>
          hn0pq (by rw [← hh]; exact List.mem_append.mpr (Or.inl hn))
        rw [List.filterMap_cons_none (hkeep_x_ne n hne)]
      have hbq : q.map (fun n => (x :: S).filterMap (keepHd n))
          = q.map (fun n => S.filterMap (keepHd n)) := by
        apply List.map_congr_left
        intro n hn
        have hne : n ≠ n0 := fun hh =>
          hn0pq (by rw [← hh]; exact List.mem_append.mpr (Or.inr hn))
        rw [List.filterMap_cons_none (hkeep_x_ne n hne)]
      have hb0 : (x :: S).filterMap (keepHd n0) = x :: S.filterMap (keepHd n0) := by
        apply List.filterMap_cons_some
        unfold keepHd
        rw [hhd, if_pos rfl]
      rw [List.map_append, List.map_cons, hbp, hbq, hb0,
        List.flatten_append, List.flatten_cons]
      rw [show (x :: S.filterMap (keepHd n0)) ++ (q.map (fun n => S.filterMap (keepHd n))).flatten
            = x :: (S.filterMap (keepHd n0) ++ (q.map (fun n => S.filterMap (keepHd n))).flatten)
          from rfl]
      refine List.Perm.trans List.perm_middle ?_
      apply List.Perm.cons
      have hcov2 : ∀ y ∈ S, ∃ n, y.1.head? = some n ∧ n ∈ p ++ n0 :: q :=
        fun y hy => hcov y (by simp [hy])
      have hmain := ihS (p ++ n0 :: q) hnd hcov2
      rw [List.map_append, List.map_cons, List.flatten_append,
        List.flatten_cons] at hmain
      exact hmain

theorem copyItems_spec (o : FsOracle) (folder : FPath) (fs : FS)
    (hne : folder ≠ []) (hhd : folder.head? ≠ some o.tmpName)
    (hcp : ∀ s, o.cpFails s = false) :
    ∀ (items : List String) (X : FS),
      (∀ e ∈ X, e.1.head? = some o.tmpName) →
      (∀ n ∈ items, ∃ en, (folder ++ [n], en) ∈ fs) →
      copyItems o folder [o.tmpName, "package"] items (X ++ fs)
        = (none,
           ((items.map (fun n =>
              rebase (subAt fs (folder ++ [n])) ([o.tmpName, "package"] ++ [n]))).reverse).flatten
             ++ (X ++ fs)) := by
  intro items
  induction items with
  | nil =>
      intro X hX hitems
      simp [copyItems]
  | cons n rest ih =>
      intro X hX hitems
      obtain ⟨a, f, rfl⟩ : ∃ a f, folder = a :: f := by
        cases folder with
        | nil => exact absurd rfl hne
        | cons a f => exact ⟨a, f, rfl⟩
      have hatmp : a ≠ o.tmpName := by
        intro hh
        exact hhd (by rw [hh]; rfl)
      obtain ⟨en, hmem⟩ := hitems n (by simp)
      have hsrcX : ∀ e ∈ X, e.1 ≠ (a :: f) ++ [n] := by
        intro e he heq
        have h1 := hX e he
        rw [heq] at h1
        simp only [List.cons_append, List.head?_cons, Option.some.injEq] at h1
        exact hatmp h1
      have hstat : (stat (X ++ fs) ((a :: f) ++ [n])).isNone = false := by
        rw [stat_append_of_left_ne hsrcX]
        have h2 := stat_isSome_of_mem hmem
        cases hsx : stat fs ((a :: f) ++ [n]) with
        | none => rw [hsx] at h2; simp at h2
        | some _ => rfl
      have hnotself :
          (stripPre ((a :: f) ++ [n]) ([o.tmpName, "package"] ++ [n])).isSome = false := by
        rw [stripPre_none_of_head_ne (by simp) (by
          simp only [List.cons_append, List.head?_cons, ne_eq, Option.some.injEq]
          exact fun hh => hatmp hh.symm)]
        rfl
      have hsub : subAt (X ++ fs) ((a :: f) ++ [n]) = subAt fs ((a :: f) ++ [n]) := by
        rw [subAt_append, subAt_nil_of_heads (by simp) (by
          intro e he
          rw [hX e he]
          simp only [List.cons_append, List.head?_cons, ne_eq, Option.some.injEq]
          exact fun hh => hatmp hh.symm), List.nil_append]
      simp only [copyItems, cpOne, hcp n, Bool.false_eq_true, if_false, hstat,
        hnotself, hsub]
      rw [← List.append_assoc]
      rw [ih (rebase (subAt fs ((a :: f) ++ [n])) ([o.tmpName, "package"] ++ [n]) ++ X)
        (by
          intro e he
          rcases List.mem_append.mp he with h | h
          · rcases List.mem_map.mp h with ⟨re, _, rfl⟩
            rfl
          · exact hX e h)
        (fun m hm => hitems m (by simp [hm]))]
      simp [List.flatten_append, List.append_assoc]

/-- The staged filesystem produced by a successful `compressFolder` body:
the copied child subtrees, the two staging directories, and the original
filesystem. -/
def stagedFS (fs : FS) (folder : FPath) (t : String) : FS :=
  (((childNames fs folder).map (fun n =>
      rebase (subAt fs (folder ++ [n])) ([t, "package"] ++ [n]))).reverse).flatten
    ++ ([([t, "package"], FSEntry.dir), ([t], FSEntry.dir)] ++ fs)

theorem compressFolder_ok (fs : FS) (folder : FPath) (archiveName : String)
    (o : FsOracle)
    (hdir : stat fs folder = some FSEntry.dir)
    (hne : folder ≠ []) (hhd : folder.head? ≠ some o.tmpName)
    (hmk : o.mkdirFails = false) (hcp : ∀ s, o.cpFails s = false)
    (hcompress : o.compressFails = false) (hrm : o.rmFails = false) :
    (compressFolder fs folder archiveName o).1
      = .ok (encodeEntries
          (rebase (subAt (stagedFS fs folder o.tmpName) [o.tmpName, "package"])
            ["package"])) := by
  unfold compressFolder
  rw [if_pos hdir]
  unfold withTmp compressBody
  simp only [hmk, Bool.false_eq_true, if_false, List.cons_append,
    List.nil_append]
  have hchild :
      childNames (([o.tmpName, "package"], FSEntry.dir) :: ([o.tmpName], FSEntry.dir) :: fs) folder
        = childNames fs folder := by
    simp only [childNames, List.filterMap_cons]
    rw [stripPre_none_of_head_ne hne (by
        simp only [List.head?_cons, ne_eq]
        exact fun hh => hhd hh.symm),
      stripPre_none_of_head_ne hne (by
        simp only [List.head?_cons, ne_eq]
        exact fun hh => hhd hh.symm)]
  rw [hchild]
  rw [show ([o.tmpName, "package"], FSEntry.dir) :: ([o.tmpName], FSEntry.dir) :: fs
        = [([o.tmpName, "package"], FSEntry.dir), ([o.tmpName], FSEntry.dir)] ++ fs
      from rfl]
  rw [copyItems_spec o folder fs hne hhd hcp (childNames fs folder)
      [([o.tmpName, "package"], FSEntry.dir), ([o.tmpName], FSEntry.dir)]
      (by
        intro e he
        simp only [List.mem_cons, List.mem_singleton, List.not_mem_nil,
          or_false] at he
        rcases he with rfl | rfl <;> rfl)
      (fun n hn => mem_childNames.mp hn)]
  simp only [hcompress, Bool.false_eq_true, if_false]
  simp [readF, stat, hrm, stagedFS]

theorem rebase_append (a b : List (FPath × FSEntry)) (d : FPath) :
    rebase (a ++ b) d = rebase a d ++ rebase b d := List.map_append _ _ _

theorem subAt_staged (fs : FS) (folder : FPath) (t : String)
    (hfresh : ∀ e ∈ fs, e.1.head? ≠ some t) :
    subAt (stagedFS fs folder t) [t, "package"]
      = (((childNames fs folder).map (fun n =>
            rebase (subAt fs (folder ++ [n])) [n])).reverse).flatten
          ++ [([], FSEntry.dir)] := by
  unfold stagedFS
  rw [subAt_append, subAt_append]
  have hX : subAt [([t, "package"], FSEntry.dir), ([t], FSEntry.dir)] [t, "package"]
      = [([], FSEntry.dir)] := by
    simp [subAt, List.filterMap_cons, stripPre]
  have hfs : subAt fs [t, "package"] = [] := by
    apply subAt_nil_of_heads (by simp)
    intro e he
    simpa using hfresh e he
  rw [hX, hfs, List.append_nil]
  congr 1
  rw [subAt_flatten, List.map_reverse]
  congr 1
  congr 1
  rw [List.map_map]
  apply List.map_congr_left
  intro n _
  exact subAt_rebase_append _ _ _

theorem staged_perm (fs : FS) (folder : FPath)
    (hnd : pathsNodup fs) (hcl : closedB fs = true) :
    List.Perm
      (rebase ((((childNames fs folder).map (fun n =>
          rebase (subAt fs (folder ++ [n])) [n])).reverse).flatten
        ++ [([], FSEntry.dir)]) ["package"])
      ((["package"], FSEntry.dir) :: rebase (strictAt fs folder) ["package"]) := by
  rw [rebase_append]
  have h1 : rebase [([], FSEntry.dir)] ["package"] = [(["package"], FSEntry.dir)] := by
    simp [rebase]
  rw [h1]
  refine List.Perm.trans (List.perm_append_singleton _ _) ?_
  apply List.Perm.cons
  have hper : List.Perm
      ((((childNames fs folder).map (fun n =>
          rebase (subAt fs (folder ++ [n])) [n])).reverse).flatten)
      (strictAt fs folder) := by
    refine List.Perm.trans (flatten_reverse_perm _) ?_
    have hM : (childNames fs folder).map (fun n => rebase (subAt fs (folder ++ [n])) [n])
        = (childNames fs folder).map (fun n => (strictAt fs folder).filterMap (keepHd n)) := by
      apply List.map_congr_left
      intro n _
      exact bucketEq fs folder n
    rw [hM]
    apply join_buckets_perm (childNames fs folder) (childNames_nodup hnd folder)
    intro x hx
    obtain ⟨c, r, hx1, hmem⟩ := mem_strictAt hx
    obtain ⟨en, hen⟩ := closedB_inits hcl (folder ++ c :: r, x.2) hmem (folder ++ [c])
      (by simp) ⟨r, by simp⟩
    exact ⟨c, by rw [hx1]; rfl, mem_childNames.mpr ⟨en, hen⟩⟩
  exact hper.map _

/-- The archive contents the claim specifies: everything from the source
folder, one level below the single fixed root folder `package`. -/
def packagedEntries (fs : FS) (folder : FPath) : List (FPath × FSEntry) :=
  (["package"], FSEntry.dir) :: rebase (strictAt fs folder) ["package"]

/-- The produced archive decodes, every entry path starts with the
`package` root segment, and the entries are exactly (up to order) the
specified ones. -/
def archiveMatches (r : Except Err Bytes) (spec : List (FPath × FSEntry)) : Prop :=
  match r with
  | .error _ => False
  | .ok b =>
      match decodeArchive b with
      | none => False
      | some l =>
          (l.all (fun e => e.1.head? == some "package")) = true ∧ List.Perm l spec

/-- The working directory can never be archived: the staging directory
is created inside it, `readdir` lists it, and copying it into its own
subdirectory fails (Node's `ERR_FS_CP_EINVAL`), on every invocation. -/
theorem cwd_self_copy (fs : FS) (archiveName : String) (o : FsOracle)
    (hcwd : stat fs [] = some FSEntry.dir)
    (hmk : o.mkdirFails = false)
    (hcp : o.cpFails o.tmpName = false)
    (hrm : o.rmFails = false) :
    (compressFolder fs [] archiveName o).1 = .error .cpIntoSelf := by
  unfold compressFolder
  rw [if_pos hcwd]
  unfold withTmp compressBody
  simp only [hmk, Bool.false_eq_true, if_false, List.cons_append,
    List.nil_append]
  have hchild :
      childNames (([o.tmpName, "package"], FSEntry.dir) :: ([o.tmpName], FSEntry.dir) :: fs) []
        = o.tmpName :: childNames fs [] := by
    simp [childNames, List.filterMap_cons, stripPre]
  rw [hchild]
  simp only [copyItems, cpOne, hcp, Bool.false_eq_true, if_false,
    List.nil_append]
  have hstat :
      stat (([o.tmpName, "package"], FSEntry.dir) :: ([o.tmpName], FSEntry.dir) :: fs)
        [o.tmpName] = some FSEntry.dir := by
    simp [stat]
  rw [hstat]
  have hself : (stripPre [o.tmpName] ([o.tmpName, "package"] ++ [o.tmpName])).isSome = true := by
    simp [stripPre]
  simp only [List.cons_append, List.nil_append] at hself ⊢
  simp [hself, hrm]

/-- C1 counterexample to the claim as stated: the working directory is a
valid existing source directory, yet `compressFolder` on it raises the
copy-into-self error on every run and produces no archive, so the
universally quantified layout-and-extraction claim fails there. -/
theorem claim_C1_counterexample :
    stat cx1Fs [] = some FSEntry.dir
    ∧ (compressFolder cx1Fs [] "demo@1.0.0.tar.gz" wOBenign).1 = .error .cpIntoSelf :=
  ⟨rfl, rfl⟩

/-- C1 (amended): for every valid source directory other than the
working directory itself (with the staging name fresh, as the
`Date.now()` scheme provides), `compressFolder` produces an archive
whose extraction yields entries that all live under the single fixed
root folder `package` and that reproduce the source directory's
contents byte-for-byte under that one extra directory level.  When the
source directory is the working directory itself, the staging directory
is created inside the source and the copy loop always fails copying it
into itself: `compressFolder` raises a copy error and produces no
archive. -/
theorem claim_C1_archive_layout :
    (∀ (fs : FS) (folder : FPath) (archiveName : String) (o : FsOracle),
        pathsNodup fs → closedB fs = true →
        stat fs folder = some FSEntry.dir → folder ≠ [] →
        folder.head? ≠ some o.tmpName → freshB fs o.tmpName = true →
        o.mkdirFails = false → (∀ s, o.cpFails s = false) →
        o.compressFails = false → o.rmFails = false →
        archiveMatches (compressFolder fs folder archiveName o).1
          (packagedEntries fs folder))
    ∧ (∀ (fs : FS) (archiveName : String) (o : FsOracle),
        stat fs [] = some FSEntry.dir → o.mkdirFails = false →
        o.cpFails o.tmpName = false → o.rmFails = false →
        (compressFolder fs [] archiveName o).1 = .error .cpIntoSelf) := by
  constructor
  · intro fs folder archiveName o hnd hcl hdir hne hhd hfresh hmk hcp hcompress hrm
    rw [compressFolder_ok fs folder archiveName o hdir hne hhd hmk hcp hcompress hrm]
    simp only [archiveMatches, decodeArchive_enc]
    constructor
    · apply List.all_eq_true.mpr
      intro x hx
      simp only [rebase] at hx
      rcases List.mem_map.mp hx with ⟨re, _, rfl⟩
      rfl
    · rw [subAt_staged fs folder o.tmpName (freshB_heads hfresh)]
      exact staged_perm fs folder hnd hcl
  · intro fs archiveName o hcwd hmk hcp hrm
    exact cwd_self_copy fs archiveName o hcwd hmk hcp hrm

attribute [irreducible] compressFolder

set_option maxHeartbeats 1600000 in
theorem claim_C1_archive_layout_witness :
    closedB wFs = true
    ∧ archiveMatches (compressFolder wFs ["pkg"] "demo@1.0.0.tar.gz" wOBenign).1
        (packagedEntries wFs ["pkg"])
    ∧ (compressFolder cx1Fs [] "x.tar.gz" wOBenign).1 = .error .cpIntoSelf :=
  ⟨by decide,
   claim_C1_archive_layout.1 wFs ["pkg"] "demo@1.0.0.tar.gz" wOBenign
     (by unfold pathsNodup; decide) (by decide) rfl (by decide) (by decide)
     (by decide) rfl (fun _ => rfl) rfl rfl,
   claim_C1_archive_layout.2 cx1Fs "x.tar.gz" wOBenign rfl rfl rfl rfl⟩
